import Mathlib

/-!
Verification development for the SuperTarefas webhook relay (`src/app.js`,
second file: the notification mailbox).  JavaScript values are shallowly
embedded: strings as `String`, numbers as `Int`, `null`/`undefined` as
`Option`, JS `Set`/`Map` as lists with set/map semantics, and wall-clock
time (`Date.now()`, `nowIso()`) as an explicit `Int` parameter in
milliseconds.
-/

namespace Webhook

/-! ## JS value helpers -/

/-- `x || ""` followed by string use: `Option.getD ""` models reading a
possibly-null JS string. -/
def strOf (o : Option String) : String := o.getD ""

/-- JS truthiness of a nullable string: `null`, `undefined` and `""` are falsy. -/
def truthyS : Option String → Bool
  | none => false
  | some s => if s = "" then false else true

/-- JS `a || b` on nullable strings (keeps `b` verbatim when `a` is falsy). -/
def jsOrS (a b : Option String) : Option String := if truthyS a then a else b

/-- JS `a || d` where the result is used as a string (`d` a literal). -/
def jsOrStr (a : Option String) (d : String) : String := if truthyS a then strOf a else d

/-- JS `a || null` on a nullable string. -/
def orNullStr (a : Option String) : Option String := if truthyS a then a else none

/-- JS truthiness of a nullable number: `null`, `undefined` and `0` are falsy. -/
def truthyI : Option Int → Bool
  | none => false
  | some v => if v = 0 then false else true

/-- JS `a || null` on a nullable number. -/
def orNullInt (a : Option Int) : Option Int := if truthyI a then a else none

/-- `safeLower(s) = (s || "").toString().trim().toLowerCase()` on a string
(trim and lower-case implemented on the character list). -/
def safeLower (s : String) : String :=
  String.mk
    ((((s.data.dropWhile Char.isWhitespace).reverse.dropWhile
        Char.isWhitespace).reverse).map Char.toLower)

/-- `safeLower` applied to a nullable value. -/
def safeLowerO (o : Option String) : String := safeLower (strOf o)

/-- `String(s).replace(/\D/g, "")`: keep only decimal digits. -/
def digitsOnly (s : String) : String := String.mk (s.data.filter Char.isDigit)

/-- `normalizeNumber(n)`: `null` for falsy input, else the digits of `String(n)`. -/
def normalizeNumber (n : Option String) : Option String :=
  match n with
  | none => none
  | some s => if s = "" then none else some (digitsOnly s)

/-- Value of a nonempty decimal-digit prefix, `none` if there is no digit. -/
def leadingDigits (cs : List Char) : Option Nat :=
  let ds := cs.takeWhile Char.isDigit
  if ds.isEmpty then none
  else some (ds.foldl (fun a c => a * 10 + (c.toNat - 48)) 0)

/-- `parseInt(s, 10)`: skip whitespace, optional sign, longest digit prefix;
`none` models `NaN`. -/
def parseIntJs (s : String) : Option Int :=
  match s.data.dropWhile Char.isWhitespace with
  | '-' :: rest => (leadingDigits rest).map (fun n => -(n : Int))
  | '+' :: rest => (leadingDigits rest).map (fun n => (n : Int))
  | cs => (leadingDigits cs).map (fun n => (n : Int))

/-! ## Data model (shapes of the JSON values the code reads) -/

structure Contact where
  name : Option String
  number : Option String
  id : Option Int
deriving DecidableEq

structure TicketQueue where
  queue : Option String
  id : Option Int
deriving DecidableEq

structure Ticket where
  id : Option Int
  tenantId : Option String
  userEmail : Option String
  unread : Option Bool
  unreadMessages : Option Int
  contact : Option Contact
  queue : Option TicketQueue
  status : Option String
  userId : Option Int
  contactId : Option Int
  lastMessage : Option String
  updatedAt : Option String
  lastMessageAt : Option String
  timestamp : Option String
deriving DecidableEq

structure Message where
  fromMe : Option Bool
  number : Option String
  chatId : Option String
  contact : Option Contact
  rawFrom : Option String
  ticketId : Option Int
  id : Option String
  messageId : Option String
  msgCreatedAt : Option String
  timestamp : Option String
  createdAt : Option String
  body : Option String
  userId : Option Int
  contactId : Option Int
  tenantId : Option String
deriving DecidableEq

structure MetaMsg where
  «from» : Option String
deriving DecidableEq

structure MetaChange where
  messages : List MetaMsg
deriving DecidableEq

structure MetaEntry where
  changes : List MetaChange
deriving DecidableEq

/-- An inbound webhook body, with exactly the fields `processWebhook` reads. -/
structure Content where
  event : Option String
  message : Option Message
  ticket : Option Ticket
  tenantId : Option String
  object : Option String
  entry : List MetaEntry
deriving DecidableEq

/-- The `summary` object built at the two `pushNotification` call sites. -/
structure Summary where
  unique_key : Option String
  tenant_id : Option String
  event : String
  ticket_id : Option Int
  ticket_status : Option String
  user_id : Option Int
  user_email : Option String
  is_pending : Bool
  queue_id : Option Int
  queue_name : Option String
  contact_id : Option Int
  contact_name : Option String
  contact_number : Option String
  last_message : Option String
  unread : Bool
  unread_messages : Int
  source_timestamp : Option String
deriving DecidableEq

/-- One stored notification record (`{id, created_at, delivered_at, summary, payload}`). -/
structure Notif where
  id : String
  created_at : Int
  delivered_at : Option Int
  summary : Summary
  payload : Content
deriving DecidableEq

/-- `pendingNotifications` plus `notifSeenKeys`. -/
structure Store where
  notifs : List Notif
  seen : List String
deriving DecidableEq

def emptyStore : Store := { notifs := [], seen := [] }

/-! ## JS `Set` of strings, as a list with set semantics -/

def setHas (s : List String) (k : String) : Bool := s.contains k

def setAdd (s : List String) (k : String) : List String :=
  if s.contains k then s else k :: s

def setDel (s : List String) (k : String) : List String :=
  s.filter (fun x => decide (x ≠ k))

/-! ## makeUniqueKey -/

/-- `a ?? d` with the result stringified by `join`. -/
def nullish (a : Option String) (d : String) : String := a.getD d

/-- `makeUniqueKey({event, tenantId, ticketId, messageId, sourceTs})`:
`[event || "evt", tenantId ?? "t", ticketId ?? "tk", messageId ?? "mid",
sourceTs ?? "ts"].join("|")`. -/
def makeUniqueKey (event tenantId ticketId messageId sourceTs : Option String) : String :=
  jsOrStr event "evt" ++ "|" ++ nullish tenantId "t" ++ "|" ++ nullish ticketId "tk"
    ++ "|" ++ nullish messageId "mid" ++ "|" ++ nullish sourceTs "ts"

/-- The five key components after placeholder defaulting. -/
def keyComponents (event tenantId ticketId messageId sourceTs : Option String) :
    List String :=
  [jsOrStr event "evt", nullish tenantId "t", nullish ticketId "tk",
    nullish messageId "mid", nullish sourceTs "ts"]

/-! ## cleanupNotifications and pushNotification -/

/-- Delete from the seen-key set the (truthy) keys of a list of removed records:
the `for (const r of removed) ... notifSeenKeys.delete(k)` loops. -/
def deleteKeys (removed : List Notif) (s : List String) : List String :=
  removed.foldl
    (fun acc r =>
      if truthyS r.summary.unique_key then setDel acc (strOf r.summary.unique_key) else acc)
    s

/-- The TTL-keep test `t >= cutoff` of `cleanupNotifications`. -/
def keptAfter (cutoff : Int) (n : Notif) : Bool := decide (cutoff ≤ n.created_at)

/-- `cleanupNotifications()`: keep records aged less than the TTL, deleting the
unique keys of dropped records from the seen-key set. -/
def cleanupNotifications (now ttlHours : Int) (σ : Store) : Store :=
  let cutoff := now - ttlHours * 3600000
  { notifs := σ.notifs.filter (keptAfter cutoff),
    seen := deleteKeys (σ.notifs.filter (fun n => ! keptAfter cutoff n)) σ.seen }

/-- The `id` field `` `${Date.now()}_${Math.random()...}` `` with the random
suffix made an explicit parameter. -/
def mkNotifId (now : Int) (rid : String) : String := toString now ++ "_" ++ rid

/-- The freshly built record of `pushNotification`. -/
def mkItem (summary : Summary) (payload : Content) (rid : String) (now : Int) : Notif :=
  { id := mkNotifId now rid, created_at := now, delivered_at := none,
    summary := summary, payload := payload }

/-- `pushNotification(summary, payload)`: dedup on the seen-key set, unshift,
record the key, and enforce the `NOTIF_MAX` cap by splicing the tail. -/
def pushNotification (summary : Summary) (payload : Content) (rid : String) (now : Int)
    (maxN : Nat) (σ : Store) : Store :=
  if truthyS summary.unique_key && setHas σ.seen (strOf summary.unique_key) then σ
  else
    let notifs1 := mkItem summary payload rid now :: σ.notifs
    let seen1 :=
      if truthyS summary.unique_key then setAdd σ.seen (strOf summary.unique_key) else σ.seen
    if notifs1.length > maxN then
      { notifs := notifs1.take maxN, seen := deleteKeys (notifs1.drop maxN) seen1 }
    else
      { notifs := notifs1, seen := seen1 }

/-! ## GET /check-notifications -/

/-- `peek = req.query.peek === "1" || req.query.peek === "true"`. -/
def peekOf (o : Option String) : Bool :=
  decide (o = some "1") || decide (o = some "true")

/-- `Array.prototype.slice(0, limit)` bound: `NaN` coerces to `0`. -/
def sliceBound : Option Int → Nat
  | none => 0
  | some v => v.toNat

/-- The mode filter of `/check-notifications` (`pending` / `my` / anything else). -/
def modeItems (modeStr userEmail : String) (l : List Notif) : List Notif :=
  if modeStr = "pending" then l.filter (fun n => n.summary.is_pending)
  else if modeStr = "my" then
    if userEmail ≠ "" then
      l.filter (fun n =>
        n.summary.is_pending || decide (safeLowerO n.summary.user_email = userEmail))
    else l
  else l

/-- Stamp a record if it was selected for delivery. -/
def stampIf (sel : List Notif) (now : Int) (n : Notif) : Notif :=
  if sel.contains n then { n with delivered_at := some now } else n

/-- The records selected by `/check-notifications` from an already-cleaned
store: undelivered, mode-filtered, sliced to the (JS-coerced) limit. -/
def querySel (ueP moP liP : Option String) (σc : Store) : List Notif :=
  (modeItems (jsOrStr moP "my") (safeLowerO ueP)
      (σc.notifs.filter (fun n => n.delivered_at.isNone))).take
    (sliceBound ((parseIntJs (jsOrStr liP "100")).map (fun v => max 1 (min v 500))))

/-- The `/check-notifications` handler: cleanup, parse query params with JS
fallbacks, filter undelivered records by mode, truncate to the limit, and
(unless peeking) stamp all returned records with one shared timestamp.
Returns the response items and the updated store. -/
def checkNotifications (ueP moP liP pkP : Option String) (now ttlHours : Int)
    (σ : Store) : List Notif × Store :=
  let σc := cleanupNotifications now ttlHours σ
  let sel := querySel ueP moP liP σc
  if peekOf pkP then (sel, σc)
  else
    ((sel.map fun n => { n with delivered_at := some now }),
      { σc with notifs := σc.notifs.map (stampIf sel now) })

/-! ## Reply set and GET /check-replies -/

/-- JS `Set.add` on the reply set (insertion order preserved). -/
def addReply (rs : List String) (n : String) : List String :=
  if rs.contains n then rs else rs ++ [n]

/-- The `/check-replies` handler: returns `(count, numbers)` and the cleared set. -/
def checkReplies (replies : List String) : (Nat × List String) × List String :=
  ((replies.length, replies), if replies.length > 0 then [] else replies)

/-! ## Enrichment cache (`ticketCache`, a JS `Map`) -/

/-- One `ticketCache` entry. -/
structure CacheEntry where
  user_email : Option String
  is_pending : Bool
  contact_name : Option String
  contact_number : Option String
  queue_name : Option String
  queue_id : Option Int
deriving DecidableEq

/-- `Map.get(...) || {}` for an absent entry: every field reads as undefined. -/
def emptyCacheEntry : CacheEntry :=
  { user_email := none, is_pending := false, contact_name := none,
    contact_number := none, queue_name := none, queue_id := none }

abbrev TicketCache := List (String × CacheEntry)

/-- JS `Map.set`: replace in place, else append (insertion order preserved). -/
def mapSet (m : TicketCache) (k : String) (v : CacheEntry) : TicketCache :=
  if m.any (fun p => decide (p.1 = k)) then
    m.map (fun p => if p.1 = k then (k, v) else p)
  else m ++ [(k, v)]

/-- JS `Map.get`, `none` for absent. -/
def mapGet (m : TicketCache) (k : String) : Option CacheEntry :=
  (m.find? (fun p => decide (p.1 = k))).map (fun p => p.2)

/-! ## processWebhook -/

/-- The whole module-level mutable state: `pendingReplies`,
`pendingNotifications`/`notifSeenKeys`, and `ticketCache`. -/
structure ServerState where
  replies : List String
  store : Store
  cache : TicketCache
deriving DecidableEq

def emptyState : ServerState := { replies := [], store := emptyStore, cache := [] }

/-- `extractTekzapInboundNumber(content)`. -/
def extractTekzapInboundNumber (content : Content) : Option String :=
  match content.message with
  | none => none
  | some msg =>
    let number :=
      jsOrS msg.number (jsOrS msg.chatId
        (jsOrS (msg.contact.bind (fun c => c.number)) msg.rawFrom))
    let tnum := content.ticket.bind (fun t => t.contact.bind (fun c => c.number))
    let number := if !truthyS number && truthyS tnum then tnum else number
    normalizeNumber number

/-- The `ticketEvents` set. -/
def ticketEvents : List String :=
  ["TransferOfTicket", "NewTicket", "StartedTicket", "UpdateOnTicket",
    "FinishedTicket", "FinishedTicketHistoricMessages"]

/-- `const userEmail = t.user?.email ? safeLower(t.user.email) : null`. -/
def ticketUserEmail (t : Ticket) : Option String :=
  if truthyS t.userEmail then some (safeLowerO t.userEmail) else none

/-- `const unreadFlag = t.unread === true || (t.unreadMessages || 0) > 0`. -/
def unreadFlag (t : Ticket) : Bool :=
  decide (t.unread = some true) || decide (0 < t.unreadMessages.getD 0)

/-- The `ticketCache.set` value built for a ticket event. -/
def cacheEntryOf (t : Ticket) : CacheEntry :=
  { user_email := ticketUserEmail t,
    is_pending := !truthyS (ticketUserEmail t),
    contact_name := orNullStr (t.contact.bind (fun c => c.name)),
    contact_number := normalizeNumber (t.contact.bind (fun c => c.number)),
    queue_name := orNullStr (t.queue.bind (fun q => q.queue)),
    queue_id := orNullInt (t.queue.bind (fun q => q.id)) }

/-- `const sourceTs = t.updatedAt || t.lastMessageAt || t.timestamp || null`. -/
def ticketSourceTs (t : Ticket) : Option String :=
  jsOrS t.updatedAt (jsOrS t.lastMessageAt (jsOrS t.timestamp none))

/-- The summary pushed for a ticket-lifecycle event. -/
def ticketSummaryOf (content : Content) (t : Ticket) (event : String) : Summary :=
  let tenantId := content.tenantId <|> t.tenantId
  let userEmail := ticketUserEmail t
  let sourceTs := ticketSourceTs t
  { unique_key := some (makeUniqueKey (some event) tenantId
      (t.id.map (fun i => toString i)) none sourceTs),
    tenant_id := tenantId,
    event := event,
    ticket_id := t.id,
    ticket_status := orNullStr t.status,
    user_id := t.userId,
    user_email := userEmail,
    is_pending := !truthyS userEmail,
    queue_id := t.queue.bind (fun q => q.id),
    queue_name := t.queue.bind (fun q => q.queue),
    contact_id := t.contactId <|> t.contact.bind (fun c => c.id),
    contact_name := t.contact.bind (fun c => c.name),
    contact_number := normalizeNumber (t.contact.bind (fun c => c.number)),
    last_message := t.lastMessage,
    unread := decide (t.unread = some true),
    unread_messages := t.unreadMessages.getD 0,
    source_timestamp := sourceTs }

/-- The summary pushed for an inbound `NewMessage`, enriched from the cache. -/
def newMessageSummaryOf (cache : TicketCache) (content : Content) (msg : Message) :
    Summary :=
  let tenantId := content.tenantId <|> msg.tenantId
  let ticketIdS := msg.ticketId.map (fun i => toString i)
  let cached :=
    match ticketIdS with
    | some tidS => (mapGet cache tidS).getD emptyCacheEntry
    | none => emptyCacheEntry
  let sourceTs := jsOrS msg.msgCreatedAt (jsOrS msg.timestamp (jsOrS msg.createdAt none))
  let messageId := jsOrS msg.id (jsOrS msg.messageId none)
  { unique_key := some (makeUniqueKey (some "NewMessage") tenantId ticketIdS
      messageId sourceTs),
    tenant_id := tenantId,
    event := "NewMessage",
    ticket_id := msg.ticketId,
    ticket_status := none,
    user_id := msg.userId,
    user_email := orNullStr cached.user_email,
    is_pending := cached.is_pending || !truthyS cached.user_email,
    queue_id := orNullInt cached.queue_id,
    queue_name := orNullStr cached.queue_name,
    contact_id := msg.contactId,
    contact_name := orNullStr cached.contact_name,
    contact_number := jsOrS cached.contact_number (extractTekzapInboundNumber content),
    last_message := orNullStr msg.body,
    unread := true,
    unread_messages := 1,
    source_timestamp := sourceTs }

/-- Meta scenario: add `String(msg.from).replace(/\D/g, "")` for each message
with a truthy `from`. -/
def metaAddMsg (rs : List String) (m : MetaMsg) : List String :=
  if truthyS m.«from» then addReply rs (digitsOnly (strOf m.«from»)) else rs

def metaAddChange (rs : List String) (c : MetaChange) : List String :=
  c.messages.foldl metaAddMsg rs

def metaAddEntry (rs : List String) (e : MetaEntry) : List String :=
  e.changes.foldl metaAddChange rs

def metaReplies (rs : List String) (es : List MetaEntry) : List String :=
  es.foldl metaAddEntry rs

/-- Scenario 1A: capture an inbound Tekzap `NewMessage` sender into the
reply set (`pendingReplies.add(number)` under the `fromMe === false` and
truthy-number guards). -/
def tekzapReplyAdd (replies : List String) (content : Content) (event : String) :
    List String :=
  if event = "NewMessage" then
    match content.message with
    | some msg =>
      if msg.fromMe = some false then
        match extractTekzapInboundNumber content with
        | some n => if n ≠ "" then addReply replies n else replies
        | none => replies
      else replies
    | none => replies
  else replies

/-- `processWebhook(content)`: scenario 1 (Tekzap) — 1A reply capture,
1B.1 ticket events (unread filter, cache update, push), 1B.2 inbound
`NewMessage` push; scenario 2 (Meta) — reply capture only. -/
def processWebhook (maxN : Nat) (now : Int) (rid : String) (st : ServerState)
    (content : Content) : ServerState :=
  if truthyS content.event then
    let event := strOf content.event
    let replies1 := tekzapReplyAdd st.replies content event
    if ticketEvents.contains event then
      match content.ticket with
      | some t =>
        if event = "UpdateOnTicket" && !unreadFlag t then
          { st with replies := replies1 }
        else
          let cache1 :=
            match t.id with
            | some tid => mapSet st.cache (toString tid) (cacheEntryOf t)
            | none => st.cache
          { replies := replies1,
            store := pushNotification (ticketSummaryOf content t event) content rid now
              maxN st.store,
            cache := cache1 }
      | none => { st with replies := replies1 }
    else if event = "NewMessage" then
      match content.message with
      | some msg =>
        if msg.fromMe = some false then
          { st with
            replies := replies1
            store := pushNotification (newMessageSummaryOf st.cache content msg) content
              rid now maxN st.store }
        else { st with replies := replies1 }
      | none => { st with replies := replies1 }
    else { st with replies := replies1 }
  else if truthyS content.object then
    { st with replies := metaReplies st.replies content.entry }
  else st

/-! ## The seen-key invariant -/

/-- The key under which a record is registered in `notifSeenKeys`
(`none` when the record's `unique_key` is falsy). -/
def keyOfN (n : Notif) : Option String :=
  if truthyS n.summary.unique_key then some (strOf n.summary.unique_key) else none

/-- The registered keys of a list of records. -/
def liveKeys (l : List Notif) : List String := l.filterMap keyOfN

/-- Store coherence: `notifSeenKeys` holds exactly the (truthy) keys of the
live records, and no key is held by two live records. -/
def Inv (σ : Store) : Prop :=
  (∀ k ∈ σ.seen, k ∈ liveKeys σ.notifs) ∧
  (∀ k ∈ liveKeys σ.notifs, k ∈ σ.seen) ∧
  (liveKeys σ.notifs).Nodup

/-- Number of live records carrying a given `unique_key`. -/
def countKey (l : List Notif) (k : String) : Nat :=
  (l.filter (fun n => decide (n.summary.unique_key = some k))).length

theorem inv_emptyStore : Inv emptyStore := by
  refine ⟨?_, ?_, ?_⟩ <;> simp [emptyStore, liveKeys]

theorem contains_iff_mem {s : List String} {k : String} :
    s.contains k = true ↔ k ∈ s := List.elem_iff

theorem mem_setAdd {s : List String} {k x : String} :
    x ∈ setAdd s k ↔ x = k ∨ x ∈ s := by
  unfold setAdd
  split
  · next h =>
    rw [contains_iff_mem] at h
    constructor
    · exact fun hx => Or.inr hx
    · rintro (rfl | hx)
      · exact h
      · exact hx
  · simp

theorem mem_setDel {s : List String} {k x : String} :
    x ∈ setDel s k ↔ x ∈ s ∧ x ≠ k := by
  simp [setDel]

theorem liveKeys_nil : liveKeys [] = [] := rfl

theorem liveKeys_cons (n : Notif) (l : List Notif) :
    liveKeys (n :: l) =
      (if truthyS n.summary.unique_key then [strOf n.summary.unique_key] else [])
        ++ liveKeys l := by
  by_cases h : truthyS n.summary.unique_key <;>
    simp [liveKeys, List.filterMap_cons, keyOfN, h]

theorem liveKeys_append (l₁ l₂ : List Notif) :
    liveKeys (l₁ ++ l₂) = liveKeys l₁ ++ liveKeys l₂ := by
  simp [liveKeys]

theorem mem_deleteKeys {removed : List Notif} {s : List String} {k : String} :
    k ∈ deleteKeys removed s ↔ k ∈ s ∧ k ∉ liveKeys removed := by
  induction removed generalizing s with
  | nil => simp [deleteKeys, liveKeys]
  | cons r rs ih =>
    show k ∈ deleteKeys rs
        (if truthyS r.summary.unique_key then setDel s (strOf r.summary.unique_key) else s)
      ↔ _
    rw [ih, liveKeys_cons]
    cases htr : truthyS r.summary.unique_key with
    | false => simp [htr]
    | true =>
      simp only [htr, if_true, mem_setDel, List.mem_append, List.mem_singleton]
      tauto

theorem deleteKeys_nil (s : List String) : deleteKeys [] s = s := rfl

/-- A push whose key is already registered is a silent no-op. -/
theorem pushNotification_seen {s : Summary} {σ : Store} (p : Content) (rid : String)
    (now : Int) (maxN : Nat) (h1 : truthyS s.unique_key = true)
    (h2 : strOf s.unique_key ∈ σ.seen) :
    pushNotification s p rid now maxN σ = σ := by
  unfold pushNotification
  rw [if_pos]
  rw [h1, Bool.true_and, setHas, contains_iff_mem]
  exact h2

/-- A push whose key is not registered inserts at the head and splices the
tail beyond the cap (splicing nothing when under the cap). -/
theorem pushNotification_not_seen {s : Summary} {σ : Store} (p : Content) (rid : String)
    (now : Int) (maxN : Nat)
    (h : ¬(truthyS s.unique_key = true ∧ strOf s.unique_key ∈ σ.seen)) :
    pushNotification s p rid now maxN σ =
      { notifs := (mkItem s p rid now :: σ.notifs).take maxN,
        seen := deleteKeys ((mkItem s p rid now :: σ.notifs).drop maxN)
          (if truthyS s.unique_key then setAdd σ.seen (strOf s.unique_key) else σ.seen) } := by
  unfold pushNotification
  rw [if_neg]
  · by_cases hl : (mkItem s p rid now :: σ.notifs).length > maxN
    · simp only [hl, if_true]
    · have hle : (mkItem s p rid now :: σ.notifs).length ≤ maxN := Nat.le_of_not_lt hl
      simp only [hl, if_false]
      rw [List.take_of_length_le hle, List.drop_eq_nil_of_le hle, deleteKeys_nil]
  · intro hc
    rw [Bool.and_eq_true, setHas, contains_iff_mem] at hc
    exact h hc

@[simp] theorem mkItem_summary (s : Summary) (p : Content) (rid : String) (now : Int) :
    (mkItem s p rid now).summary = s := rfl

@[simp] theorem mkItem_created_at (s : Summary) (p : Content) (rid : String) (now : Int) :
    (mkItem s p rid now).created_at = now := rfl

@[simp] theorem mkItem_delivered_at (s : Summary) (p : Content) (rid : String) (now : Int) :
    (mkItem s p rid now).delivered_at = none := rfl

/-- Coherence of a store whose records are `A` after records `B` were dropped
and their keys deleted, starting from a seen-set matching `A ++ B`. -/
theorem inv_parts (A B : List Notif) (seen1 : List String)
    (hmem : ∀ k, k ∈ seen1 ↔ k ∈ liveKeys A ++ liveKeys B)
    (hnd : (liveKeys A ++ liveKeys B).Nodup) :
    Inv { notifs := A, seen := deleteKeys B seen1 } := by
  obtain ⟨hndA, hndB, hdisj⟩ := List.nodup_append.mp hnd
  refine ⟨?_, ?_, hndA⟩
  · intro k hk
    rw [mem_deleteKeys, hmem, List.mem_append] at hk
    rcases hk with ⟨hA | hB, hnB⟩
    · exact hA
    · exact absurd hB hnB
  · intro k hk
    rw [mem_deleteKeys, hmem, List.mem_append]
    exact ⟨Or.inl hk, hdisj hk⟩

/-- Pushing preserves store coherence. -/
theorem inv_push (σ : Store) (hinv : Inv σ) (s : Summary) (p : Content) (rid : String)
    (now : Int) (maxN : Nat) : Inv (pushNotification s p rid now maxN σ) := by
  obtain ⟨h1, h2, h3⟩ := hinv
  by_cases hg : truthyS s.unique_key = true ∧ strOf s.unique_key ∈ σ.seen
  · rw [pushNotification_seen p rid now maxN hg.1 hg.2]
    exact ⟨h1, h2, h3⟩
  · rw [pushNotification_not_seen p rid now maxN hg]
    have hLkeys : liveKeys (mkItem s p rid now :: σ.notifs) =
        (if truthyS s.unique_key then [strOf s.unique_key] else []) ++ liveKeys σ.notifs := by
      rw [liveKeys_cons, mkItem_summary]
    have hseen1 : ∀ k,
        k ∈ (if truthyS s.unique_key then setAdd σ.seen (strOf s.unique_key) else σ.seen)
          ↔ k ∈ liveKeys (mkItem s p rid now :: σ.notifs) := by
      intro k
      rw [hLkeys]
      cases htr : truthyS s.unique_key with
      | false =>
        simpa using ⟨h1 k, h2 k⟩
      | true =>
        simp only [if_true, mem_setAdd, List.mem_append, List.mem_singleton]
        exact or_congr Iff.rfl ⟨h1 k, h2 k⟩
    have hnd1 : (liveKeys (mkItem s p rid now :: σ.notifs)).Nodup := by
      rw [hLkeys]
      cases htr : truthyS s.unique_key with
      | false => simpa using h3
      | true =>
        have hfresh : strOf s.unique_key ∉ liveKeys σ.notifs := by
          intro hmem'
          exact hg ⟨htr, h2 _ hmem'⟩
        simpa using List.nodup_cons.mpr ⟨hfresh, h3⟩
    have hsplit :
        liveKeys ((mkItem s p rid now :: σ.notifs).take maxN)
            ++ liveKeys ((mkItem s p rid now :: σ.notifs).drop maxN)
          = liveKeys (mkItem s p rid now :: σ.notifs) := by
      rw [← liveKeys_append, List.take_append_drop]
    exact inv_parts _ _ _ (fun k => by rw [hsplit]; exact hseen1 k)
      (by rw [hsplit]; exact hnd1)

/-- Cleanup preserves store coherence. -/
theorem inv_cleanup (now ttlH : Int) (σ : Store) (hinv : Inv σ) :
    Inv (cleanupNotifications now ttlH σ) := by
  obtain ⟨h1, h2, h3⟩ := hinv
  simp only [cleanupNotifications]
  have hperm :
      (σ.notifs.filter (keptAfter (now - ttlH * 3600000))
          ++ σ.notifs.filter (fun n => !keptAfter (now - ttlH * 3600000) n)).Perm
        σ.notifs := List.filter_append_perm _ σ.notifs
  have hkeysperm :
      (liveKeys (σ.notifs.filter (keptAfter (now - ttlH * 3600000)))
          ++ liveKeys (σ.notifs.filter (fun n => !keptAfter (now - ttlH * 3600000) n))).Perm
        (liveKeys σ.notifs) := by
    rw [← liveKeys_append]
    exact hperm.filterMap keyOfN
  exact inv_parts _ _ _
    (fun k => (Iff.intro (h1 k) (h2 k)).trans hkeysperm.mem_iff.symm)
    (hkeysperm.nodup_iff.mpr h3)

theorem keyOfN_eq_some {n : Notif} {k : String} (hk : k ≠ "") :
    keyOfN n = some k ↔ n.summary.unique_key = some k := by
  unfold keyOfN
  cases hu : n.summary.unique_key with
  | none => simp [truthyS]
  | some s =>
    by_cases hs : s = ""
    · subst hs
      simp [truthyS]
      exact fun h => hk h.symm
    · simp [truthyS, hs, strOf]

theorem mem_liveKeys_of {l : List Notif} {n : Notif} {k : String}
    (hn : n ∈ l) (hkey : keyOfN n = some k) : k ∈ liveKeys l :=
  List.mem_filterMap.mpr ⟨n, hn, hkey⟩

theorem countKey_eq_zero {l : List Notif} {k : String} (hk : k ≠ "")
    (h : k ∉ liveKeys l) : countKey l k = 0 := by
  unfold countKey
  rw [List.length_eq_zero]
  rw [List.filter_eq_nil_iff]
  intro n hn
  simp only [decide_eq_true_eq]
  intro he
  exact h (mem_liveKeys_of hn ((keyOfN_eq_some hk).mpr he))

theorem countKey_eq_one {l : List Notif} {k : String} (hk : k ≠ "")
    (hnd : (liveKeys l).Nodup) (hmem : k ∈ liveKeys l) : countKey l k = 1 := by
  induction l with
  | nil => simp [liveKeys] at hmem
  | cons n t ih =>
    rw [liveKeys_cons] at hnd hmem
    by_cases hp : n.summary.unique_key = some k
    · have hkeyn : keyOfN n = some k := (keyOfN_eq_some hk).mpr hp
      have htr : truthyS n.summary.unique_key = true := by
        unfold keyOfN at hkeyn
        by_contra hf
        simp only [Bool.not_eq_true] at hf
        rw [hf] at hkeyn
        simp at hkeyn
      have hstr : strOf n.summary.unique_key = k := by
        unfold keyOfN at hkeyn
        rw [htr] at hkeyn
        simpa using hkeyn
      rw [htr, hstr] at hnd
      have hknot : k ∉ liveKeys t := by
        have := List.nodup_append.mp hnd
        intro hkt
        exact this.2.2 (List.mem_singleton_self k) hkt
      unfold countKey
      rw [List.filter_cons_of_pos (by simp [hp])]
      have h0 : countKey t k = 0 := countKey_eq_zero hk hknot
      unfold countKey at h0
      simp only [List.length_cons]
      omega
    · unfold countKey
      rw [List.filter_cons_of_neg (by simp [hp])]
      have hmem' : k ∈ liveKeys t := by
        rcases List.mem_append.mp hmem with hx | hx
        · exfalso
          by_cases htr : truthyS n.summary.unique_key
          · rw [if_pos htr] at hx
            rw [List.mem_singleton] at hx
            subst hx
            have : keyOfN n = some (strOf n.summary.unique_key) := by
              unfold keyOfN
              rw [if_pos htr]
            rw [keyOfN_eq_some hk] at this
            exact hp this
          · rw [if_neg htr] at hx
            simp at hx
        · exact hx
      exact ih (List.Nodup.of_append_right hnd) hmem'

theorem liveKeys_subset {l₁ l₂ : List Notif} (h : l₁ ⊆ l₂) :
    liveKeys l₁ ⊆ liveKeys l₂ := by
  intro k hk
  rcases List.mem_filterMap.mp hk with ⟨n, hn, hkey⟩
  exact List.mem_filterMap.mpr ⟨n, h hn, hkey⟩

/-- A built key always contains the four separators, so it is never empty
(hence always truthy). -/
theorem makeUniqueKey_ne_empty (e tn tk m ts : Option String) :
    makeUniqueKey e tn tk m ts ≠ "" := by
  intro h
  have hlen := congrArg String.length h
  simp only [makeUniqueKey, String.length_append] at hlen
  have h1 : ("|" : String).length = 1 := rfl
  have h0 : ("" : String).length = 0 := rfl
  rw [h1, h0] at hlen
  omega

/-! ## Concrete sample values used by witnesses and counterexamples -/

/-- An inert webhook body (used as an opaque payload). -/
def sampleContent : Content :=
  { event := none, message := none, ticket := none, tenantId := none, object := none,
    entry := [] }

/-- A minimal summary shape; witnesses override the fields they exercise. -/
def baseSummary : Summary :=
  { unique_key := none, tenant_id := none, event := "evt", ticket_id := none,
    ticket_status := none, user_id := none, user_email := none, is_pending := true,
    queue_id := none, queue_name := none, contact_id := none, contact_name := none,
    contact_number := none, last_message := none, unread := false, unread_messages := 0,
    source_timestamp := none }

def keyedSummary (k : String) : Summary := { baseSummary with unique_key := some k }

def kC1 : String := makeUniqueKey (some "NewTicket") (some "1") (some "55") none (some "T")

/-! ## Claims -/

/-- C1: pushing twice with the key built from a fixed
(kind, tenant, ticket, message, source-timestamp) tuple leaves exactly one
live record with that key; the second push is a no-op that neither inserts
nor updates, and the store keeps at most one live record per registered
unique key (the coherence invariant survives pushes and cleanups). -/
theorem claim_C1_push_dedup_idempotent (maxN : Nat) (hmax : 1 ≤ maxN) (σ : Store)
    (hinv : Inv σ) (e tn tk m ts : Option String) (s₁ s₂ : Summary) (p₁ p₂ : Content)
    (r₁ r₂ : String) (t₁ t₂ : Int)
    (hk₁ : s₁.unique_key = some (makeUniqueKey e tn tk m ts))
    (hk₂ : s₂.unique_key = some (makeUniqueKey e tn tk m ts)) :
    pushNotification s₂ p₂ r₂ t₂ maxN (pushNotification s₁ p₁ r₁ t₁ maxN σ)
        = pushNotification s₁ p₁ r₁ t₁ maxN σ
      ∧ countKey (pushNotification s₁ p₁ r₁ t₁ maxN σ).notifs (makeUniqueKey e tn tk m ts) = 1
      ∧ Inv (pushNotification s₁ p₁ r₁ t₁ maxN σ)
      ∧ ∀ now' ttl',
          Inv (cleanupNotifications now' ttl' (pushNotification s₁ p₁ r₁ t₁ maxN σ)) := by
  have hkne : makeUniqueKey e tn tk m ts ≠ "" := makeUniqueKey_ne_empty e tn tk m ts
  have htr₁ : truthyS s₁.unique_key = true := by
    rw [hk₁]; simp [truthyS, hkne]
  have htr₂ : truthyS s₂.unique_key = true := by
    rw [hk₂]; simp [truthyS, hkne]
  have hstr₁ : strOf s₁.unique_key = makeUniqueKey e tn tk m ts := by
    rw [hk₁]; rfl
  have hstr₂ : strOf s₂.unique_key = makeUniqueKey e tn tk m ts := by
    rw [hk₂]; rfl
  have hkin : makeUniqueKey e tn tk m ts ∈ (pushNotification s₁ p₁ r₁ t₁ maxN σ).seen := by
    by_cases hseen : makeUniqueKey e tn tk m ts ∈ σ.seen
    · rw [pushNotification_seen p₁ r₁ t₁ maxN htr₁ (by rw [hstr₁]; exact hseen)]
      exact hseen
    · have hg : ¬(truthyS s₁.unique_key = true ∧ strOf s₁.unique_key ∈ σ.seen) := by
        rintro ⟨-, hmem⟩
        rw [hstr₁] at hmem
        exact hseen hmem
      rw [pushNotification_not_seen p₁ r₁ t₁ maxN hg]
      show _ ∈ deleteKeys _ _
      rw [mem_deleteKeys]
      refine ⟨?_, ?_⟩
      · simp [htr₁, hstr₁, mem_setAdd]
      · intro hmem
        have hsub : (mkItem s₁ p₁ r₁ t₁ :: σ.notifs).drop maxN ⊆ σ.notifs := by
          obtain ⟨mm, rfl⟩ : ∃ mm, maxN = mm + 1 := ⟨maxN - 1, by omega⟩
          rw [List.drop_succ_cons]
          exact List.drop_subset mm σ.notifs
        have hlive : makeUniqueKey e tn tk m ts ∈ liveKeys σ.notifs :=
          liveKeys_subset hsub hmem
        exact hseen (hinv.2.1 _ hlive)
  have hinvp : Inv (pushNotification s₁ p₁ r₁ t₁ maxN σ) :=
    inv_push σ hinv s₁ p₁ r₁ t₁ maxN
  refine ⟨pushNotification_seen p₂ r₂ t₂ maxN htr₂ (by rw [hstr₂]; exact hkin),
    countKey_eq_one hkne hinvp.2.2 (hinvp.1 _ hkin), hinvp,
    fun now' ttl' => inv_cleanup now' ttl' _ hinvp⟩

/-- Witness for C1 at a concrete tuple, capacity 2, empty store. -/
theorem claim_C1_witness :
    1 ≤ 2 ∧ Inv emptyStore
      ∧ pushNotification (keyedSummary kC1) sampleContent "b" 9 2
          (pushNotification (keyedSummary kC1) sampleContent "a" 5 2 emptyStore)
        = pushNotification (keyedSummary kC1) sampleContent "a" 5 2 emptyStore
      ∧ countKey (pushNotification (keyedSummary kC1) sampleContent "a" 5 2 emptyStore).notifs
          kC1 = 1 :=
  ⟨by decide, inv_emptyStore,
    (claim_C1_push_dedup_idempotent 2 (by decide) emptyStore inv_emptyStore
      (some "NewTicket") (some "1") (some "55") none (some "T")
      (keyedSummary kC1) (keyedSummary kC1) sampleContent sampleContent
      "a" "b" 5 9 rfl rfl).1,
    (claim_C1_push_dedup_idempotent 2 (by decide) emptyStore inv_emptyStore
      (some "NewTicket") (some "1") (some "55") none (some "T")
      (keyedSummary kC1) (keyedSummary kC1) sampleContent sampleContent
      "a" "b" 5 9 rfl rfl).2.1⟩

/-- Splitting a list at a separator character absent from both prefixes is
unambiguous. -/
theorem sep_split {a b r₁ r₂ : List Char} (ha : ('|' : Char) ∉ a)
    (hb : ('|' : Char) ∉ b) (h : a ++ '|' :: r₁ = b ++ '|' :: r₂) :
    a = b ∧ r₁ = r₂ := by
  induction a generalizing b with
  | nil =>
    cases b with
    | nil => simpa using h
    | cons y ys =>
      exfalso
      simp only [List.nil_append, List.cons_append, List.cons.injEq] at h
      exact hb (h.1 ▸ List.mem_cons_self y ys)
  | cons x xs ih =>
    cases b with
    | nil =>
      exfalso
      simp only [List.cons_append, List.nil_append, List.cons.injEq] at h
      exact ha (h.1 ▸ List.mem_cons_self x xs)
    | cons y ys =>
      simp only [List.cons_append, List.cons.injEq] at h
      have ha' : ('|' : Char) ∉ xs := fun hx => ha (List.mem_cons_of_mem x hx)
      have hb' : ('|' : Char) ∉ ys := fun hy => hb (List.mem_cons_of_mem y hy)
      have := ih ha' hb' h.2
      exact ⟨by rw [h.1, this.1], this.2⟩

/-- The character data of a built key, split at the four separators. -/
theorem makeUniqueKey_data (e tn tk m ts : Option String) :
    (makeUniqueKey e tn tk m ts).data =
      (jsOrStr e "evt").data ++ '|' :: ((nullish tn "t").data ++ '|' ::
        ((nullish tk "tk").data ++ '|' :: ((nullish m "mid").data ++ '|' ::
          (nullish ts "ts").data))) := by
  simp [makeUniqueKey, String.data_append]

/-- C8 (amended): `makeUniqueKey` is a total pure function defaulting each
absent input to a fixed per-field placeholder, and — provided the separator
`|` occurs in no defaulted component — two input tuples produce the same key
only if all five defaulted components are equal.  (The source applies no
normalization, so the proviso is genuinely needed; see the counterexample.) -/
theorem claim_C8_key_builder (e₁ tn₁ tk₁ m₁ ts₁ e₂ tn₂ tk₂ m₂ ts₂ : Option String)
    (h₁ : ∀ c ∈ keyComponents e₁ tn₁ tk₁ m₁ ts₁, ('|' : Char) ∉ c.data)
    (h₂ : ∀ c ∈ keyComponents e₂ tn₂ tk₂ m₂ ts₂, ('|' : Char) ∉ c.data)
    (heq : makeUniqueKey e₁ tn₁ tk₁ m₁ ts₁ = makeUniqueKey e₂ tn₂ tk₂ m₂ ts₂) :
    keyComponents e₁ tn₁ tk₁ m₁ ts₁ = keyComponents e₂ tn₂ tk₂ m₂ ts₂ := by
  have hd := congrArg String.data heq
  rw [makeUniqueKey_data, makeUniqueKey_data] at hd
  have s1 := sep_split (h₁ _ (by simp [keyComponents])) (h₂ _ (by simp [keyComponents])) hd
  have s2 := sep_split (h₁ _ (by simp [keyComponents])) (h₂ _ (by simp [keyComponents])) s1.2
  have s3 := sep_split (h₁ _ (by simp [keyComponents])) (h₂ _ (by simp [keyComponents])) s2.2
  have s4 := sep_split (h₁ _ (by simp [keyComponents])) (h₂ _ (by simp [keyComponents])) s3.2
  simp only [keyComponents, List.cons.injEq, and_true]
  exact ⟨String.ext s1.1, String.ext s2.1, String.ext s3.1, String.ext s4.1,
    String.ext s4.2⟩

/-- Witness for C8 at a concrete separator-free tuple. -/
theorem claim_C8_witness :
    (∀ c ∈ keyComponents (some "NewMessage") (some "7") none none (some "123"),
        ('|' : Char) ∉ c.data)
      ∧ keyComponents (some "NewMessage") (some "7") none none (some "123")
        = keyComponents (some "NewMessage") (some "7") none none (some "123") :=
  ⟨by decide,
    claim_C8_key_builder (some "NewMessage") (some "7") none none (some "123")
      (some "NewMessage") (some "7") none none (some "123")
      (by decide) (by decide) rfl⟩

/-- C8 counterexample: no normalization strips the separator, so two tuples
with different defaulted components can collide on the same key (the claim's
"same key only if all five components are equal" fails as stated). -/
theorem claim_C8_counterexample :
    makeUniqueKey (some "a|b") (some "c") none none none
        = makeUniqueKey (some "a") (some "b|c") none none none
      ∧ keyComponents (some "a|b") (some "c") none none none
        ≠ keyComponents (some "a") (some "b|c") none none none := by
  constructor
  · decide
  · decide

/-! ## Query-shape lemmas -/

theorem cleanup_notifs (now ttlH : Int) (σ : Store) :
    (cleanupNotifications now ttlH σ).notifs
      = σ.notifs.filter (keptAfter (now - ttlH * 3600000)) := rfl

theorem mem_modeItems {m u : String} {l : List Notif} {n : Notif}
    (h : n ∈ modeItems m u l) : n ∈ l := by
  unfold modeItems at h
  split at h
  · exact List.mem_of_mem_filter h
  · split at h
    · split at h
      · exact List.mem_of_mem_filter h
      · exact h
    · exact h

theorem mem_querySel {ueP moP liP : Option String} {σc : Store} {n : Notif}
    (h : n ∈ querySel ueP moP liP σc) :
    n ∈ σc.notifs ∧ n.delivered_at = none := by
  unfold querySel at h
  have h1 := mem_modeItems (List.mem_of_mem_take h)
  have h2 := List.mem_filter.mp h1
  exact ⟨h2.1, Option.isNone_iff_eq_none.mp h2.2⟩

/-- Every item returned by `/check-notifications` originates from a live,
undelivered, unexpired record with the same id, creation time and summary. -/
theorem items_spec (ueP moP liP pkP : Option String) (now ttlH : Int) (σ : Store) :
    ∀ m ∈ (checkNotifications ueP moP liP pkP now ttlH σ).1,
      ∃ w, w ∈ σ.notifs ∧ w.delivered_at = none
        ∧ keptAfter (now - ttlH * 3600000) w = true
        ∧ m.id = w.id ∧ m.created_at = w.created_at ∧ m.summary = w.summary := by
  intro m hm
  unfold checkNotifications at hm
  by_cases hp : peekOf pkP
  · rw [if_pos hp] at hm
    obtain ⟨hmem, hdel⟩ := mem_querySel hm
    rw [cleanup_notifs] at hmem
    have := List.mem_filter.mp hmem
    exact ⟨m, this.1, hdel, this.2, rfl, rfl, rfl⟩
  · rw [if_neg hp] at hm
    obtain ⟨w, hw, rfl⟩ := List.mem_map.mp hm
    obtain ⟨hmem, hdel⟩ := mem_querySel hw
    rw [cleanup_notifs] at hmem
    have := List.mem_filter.mp hmem
    exact ⟨w, this.1, hdel, this.2, rfl, rfl, rfl⟩

theorem modeItems_all (u : String) (l : List Notif) : modeItems "all" u l = l := by
  unfold modeItems
  rw [if_neg (by decide), if_neg (by decide)]

theorem modeItems_other {m : String} (h1 : m ≠ "pending") (h2 : m ≠ "my")
    (u : String) (l : List Notif) : modeItems m u l = l := by
  unfold modeItems
  rw [if_neg h1, if_neg h2]

theorem modeItems_my_noemail (l : List Notif) : modeItems "my" "" l = l := by
  unfold modeItems
  rw [if_neg (by decide), if_pos rfl, if_neg (by decide)]

/-- With mode `all`, no limit parameter and `peek` absent, the handler
returns all undelivered unexpired records (stamped), as long as there are at
most 100 of them. -/
theorem checkNotifications_all_default (ueP : Option String) (now ttlH : Int) (σ : Store)
    (hlen : ((cleanupNotifications now ttlH σ).notifs.filter
        (fun w => w.delivered_at.isNone)).length ≤ 100) :
    (checkNotifications ueP (some "all") none none now ttlH σ).1
      = ((cleanupNotifications now ttlH σ).notifs.filter
          (fun w => w.delivered_at.isNone)).map
        (fun n => { n with delivered_at := some now }) := by
  unfold checkNotifications
  rw [if_neg (by decide)]
  have hsel : querySel ueP (some "all") none (cleanupNotifications now ttlH σ)
      = (cleanupNotifications now ttlH σ).notifs.filter (fun w => w.delivered_at.isNone) := by
    unfold querySel
    have hmode : jsOrStr (some "all") "my" = "all" := by decide
    have hlimit : sliceBound ((parseIntJs (jsOrStr none "100")).map
        (fun v => max 1 (min v 500))) = 100 := by decide
    rw [hmode, hlimit, modeItems_all]
    exact List.take_of_length_le hlen
  rw [hsel]

/-- C2 (amended): with TTL `H` hours, a record created at `T` is kept by
cleanup — and hence eligible for queries — at any time `now ≤ T + H` (in ms),
and is gone from the record list and from every query result as soon as
`now > T + H` strictly.  (The claim's "absent once now ≥ T+H" fails at the
boundary `now = T+H`, where the `t >= cutoff` test still keeps the record;
cleanup runs at the start of every query, so expiry never depends on the
background sweeper.) -/
theorem claim_C2_ttl_expiry (σ : Store) (n : Notif) (now ttlH : Int)
    (hn : n ∈ σ.notifs) (hid : (σ.notifs.map Notif.id).Nodup) :
    ((n.created_at + ttlH * 3600000 < now) →
        n ∉ (cleanupNotifications now ttlH σ).notifs
          ∧ ∀ ueP moP liP pkP,
              n.id ∉ (checkNotifications ueP moP liP pkP now ttlH σ).1.map Notif.id)
      ∧ ((now ≤ n.created_at + ttlH * 3600000) →
          n ∈ (cleanupNotifications now ttlH σ).notifs
            ∧ (n.delivered_at = none →
                ((cleanupNotifications now ttlH σ).notifs.filter
                    (fun w => w.delivered_at.isNone)).length ≤ 100 →
                { n with delivered_at := some now }
                  ∈ (checkNotifications none (some "all") none none now ttlH σ).1)) := by
  constructor
  · intro hexp
    have hkept : keptAfter (now - ttlH * 3600000) n = false := by
      unfold keptAfter
      simp only [decide_eq_false_iff_not, not_le]
      omega
    constructor
    · rw [cleanup_notifs]
      intro hmem
      have := (List.mem_filter.mp hmem).2
      rw [hkept] at this
      exact Bool.false_ne_true this
    · intro ueP moP liP pkP hmem
      obtain ⟨m, hm, hmid⟩ := List.mem_map.mp hmem
      obtain ⟨w, hw, hwdel, hwkept, hid1, -, -⟩ :=
        items_spec ueP moP liP pkP now ttlH σ m hm
      have hwn : w = n :=
        List.inj_on_of_nodup_map hid hw hn (by rw [← hid1, hmid])
      rw [hwn, hkept] at hwkept
      exact Bool.false_ne_true hwkept
  · intro hlive
    have hkept : keptAfter (now - ttlH * 3600000) n = true := by
      unfold keptAfter
      simp only [decide_eq_true_eq]
      omega
    have hmemc : n ∈ (cleanupNotifications now ttlH σ).notifs := by
      rw [cleanup_notifs]
      exact List.mem_filter.mpr ⟨hn, hkept⟩
    refine ⟨hmemc, fun hdel hlen => ?_⟩
    rw [checkNotifications_all_default none now ttlH σ hlen]
    refine List.mem_map.mpr ⟨n, ?_, rfl⟩
    refine List.mem_filter.mpr ⟨hmemc, ?_⟩
    rw [hdel]
    rfl

def notifC2 : Notif := mkItem (keyedSummary "k1") sampleContent "a" 0

def σC2 : Store := pushNotification (keyedSummary "k1") sampleContent "a" 0 2 emptyStore

/-- C2 counterexample: a record created at `T = 0` with TTL one hour is still
returned by a query — and still counted live — at exactly
`now = T + 3600000`, contradicting "absent once current time ≥ T+H". -/
theorem claim_C2_counterexample :
    (cleanupNotifications 3600000 1 σC2).notifs.length = 1
      ∧ (checkNotifications none none none none 3600000 1 σC2).1.length = 1 := by
  constructor
  · decide
  · decide

/-- Witness for C2: the amended theorem applied at a concrete record,
once past the strict boundary and once inside the TTL window. -/
theorem claim_C2_witness :
    notifC2 ∈ σC2.notifs ∧ (σC2.notifs.map Notif.id).Nodup
      ∧ notifC2 ∉ (cleanupNotifications 3600001 1 σC2).notifs
      ∧ { notifC2 with delivered_at := some 1800000 }
          ∈ (checkNotifications none (some "all") none none 1800000 1 σC2).1 :=
  ⟨by decide, by decide,
    ((claim_C2_ttl_expiry σC2 notifC2 3600001 1 (by decide) (by decide)).1
      (by decide)).1,
    ((claim_C2_ttl_expiry σC2 notifC2 1800000 1 (by decide) (by decide)).2
      (by decide)).2 (by decide) (by decide)⟩

/-- C5 (amended): with mode `my` and no subject identifier the filter block
is skipped entirely, so the call behaves exactly like mode `all` — every
undelivered record is eligible, not only the pending ones. -/
theorem claim_C5_my_without_subject (ueP liP pkP : Option String) (now ttlH : Int)
    (σ : Store) (h : safeLowerO ueP = "") :
    checkNotifications ueP (some "my") liP pkP now ttlH σ
      = checkNotifications ueP (some "all") liP pkP now ttlH σ := by
  unfold checkNotifications querySel
  rw [h]
  have hmy : jsOrStr (some "my") "my" = "my" := by decide
  have hall : jsOrStr (some "all") "my" = "all" := by decide
  rw [hmy, hall]
  simp only [modeItems_all, modeItems_my_noemail]

def sC5 : Summary :=
  { baseSummary with
    unique_key := some "k5"
    is_pending := false
    user_email := some "a@x" }

def σC5 : Store := pushNotification sC5 sampleContent "a" 0 2 emptyStore

/-- C5 counterexample: a non-pending record owned by `a@x` is returned by
mode `my` without a subject identifier but not by mode `pending`, so the two
modes are not equivalent as the claim states. -/
theorem claim_C5_counterexample :
    (checkNotifications none (some "my") none none 0 72 σC5).1
      ≠ (checkNotifications none (some "pending") none none 0 72 σC5).1 := by
  decide

/-- Witness for C5 on a concrete store. -/
theorem claim_C5_witness :
    safeLowerO (none : Option String) = ""
      ∧ checkNotifications none (some "my") none none 0 72 σC5
        = checkNotifications none (some "all") none none 0 72 σC5 :=
  ⟨rfl, claim_C5_my_without_subject none none none 0 72 σC5 rfl⟩

/-- C6 (amended): malformed filter parameters never fail the call, but the
fallbacks differ from the claim: an unrecognized (truthy) mode string
behaves as mode `all` (no filter), not as the default `my`; a limit that
parses to NaN propagates through the clamp and coerces the slice bound to 0,
so the call returns an empty list rather than the default 100; a malformed
peek flag does fall back to peek=false. -/
theorem claim_C6_param_fallbacks (ueP moP liP pkP : Option String) (now ttlH : Int)
    (σ : Store) (m ls ps : String)
    (hm0 : m ≠ "") (hm1 : m ≠ "pending") (hm2 : m ≠ "my")
    (hl : parseIntJs ls = none) (hl0 : ls ≠ "")
    (hp1 : ps ≠ "1") (hp2 : ps ≠ "true") :
    checkNotifications ueP (some m) liP pkP now ttlH σ
        = checkNotifications ueP (some "all") liP pkP now ttlH σ
      ∧ (checkNotifications ueP moP (some ls) pkP now ttlH σ).1 = []
      ∧ checkNotifications ueP moP liP (some ps) now ttlH σ
        = checkNotifications ueP moP liP none now ttlH σ := by
  refine ⟨?_, ?_, ?_⟩
  · unfold checkNotifications querySel
    have hjs : jsOrStr (some m) "my" = m := by simp [jsOrStr, truthyS, strOf, hm0]
    have hjs2 : jsOrStr (some "all") "my" = "all" := by decide
    rw [hjs, hjs2]
    simp only [modeItems_all, modeItems_other hm1 hm2]
  · unfold checkNotifications querySel
    have hjs : jsOrStr (some ls) "100" = ls := by simp [jsOrStr, truthyS, strOf, hl0]
    rw [hjs, hl]
    by_cases hp : peekOf pkP <;> simp [hp, sliceBound]
  · unfold checkNotifications
    have hps : peekOf (some ps) = peekOf none := by simp [peekOf, hp1, hp2]
    simp only [hps]

def sC6 : Summary :=
  { baseSummary with
    unique_key := some "k6"
    is_pending := false
    user_email := some "a@x" }

def σC6 : Store := pushNotification sC6 sampleContent "a" 0 2 emptyStore

/-- C6 counterexample: with a non-pending record owned by `a@x`, the
unrecognized mode `bogus` returns it while the documented default mode would
filter it out, and the malformed limit `abc` returns nothing while the
default limit returns it — so malformed parameters do not behave like the
defaulted parameters. -/
theorem claim_C6_counterexample :
    (checkNotifications (some "b@y") (some "bogus") none none 0 72 σC6).1
        ≠ (checkNotifications (some "b@y") none none none 0 72 σC6).1
      ∧ (checkNotifications none none (some "abc") none 0 72 σC6).1
        ≠ (checkNotifications none none none none 0 72 σC6).1 := by
  constructor
  · decide
  · decide

theorem notif_contains_iff {l : List Notif} {n : Notif} :
    l.contains n = true ↔ n ∈ l := List.elem_iff

/-- C10: a delivered record is excluded from every later query result, yet it
stays in the record list through cleanup (until its TTL), its presence still
counts toward the capacity cap, and its unique key stays registered, so a
push with the same key is still rejected as a duplicate. -/
theorem claim_C10_delivered_stay_live (σ : Store) (maxN : Nat) (hinv : Inv σ)
    (hid : (σ.notifs.map Notif.id).Nodup) (n : Notif) (d : Int)
    (hn : n ∈ σ.notifs) (hd : n.delivered_at = some d) :
    (∀ ueP moP liP pkP now' ttl',
        n.id ∉ (checkNotifications ueP moP liP pkP now' ttl' σ).1.map Notif.id)
      ∧ (∀ now' ttl', now' - ttl' * 3600000 ≤ n.created_at →
          n ∈ (cleanupNotifications now' ttl' σ).notifs)
      ∧ (∀ s' p' r' t', s'.unique_key = n.summary.unique_key →
          truthyS n.summary.unique_key = true →
          pushNotification s' p' r' t' maxN σ = σ)
      ∧ (∀ s' p' r' t', truthyS s'.unique_key = true →
          strOf s'.unique_key ∉ σ.seen →
          (pushNotification s' p' r' t' maxN σ).notifs.length
            = min (σ.notifs.length + 1) maxN) := by
  refine ⟨?_, ?_, ?_, ?_⟩
  · intro ueP moP liP pkP now' ttl' hmem
    obtain ⟨m, hm, hmid⟩ := List.mem_map.mp hmem
    obtain ⟨w, hw, hwdel, -, hid1, -, -⟩ :=
      items_spec ueP moP liP pkP now' ttl' σ m hm
    have hwn : w = n := List.inj_on_of_nodup_map hid hw hn (by rw [← hid1, hmid])
    rw [hwn, hd] at hwdel
    exact Option.noConfusion hwdel
  · intro now' ttl' hage
    rw [cleanup_notifs]
    refine List.mem_filter.mpr ⟨hn, ?_⟩
    unfold keptAfter
    simp only [decide_eq_true_eq]
    omega
  · intro s' p' r' t' hk htr
    have hkey : keyOfN n = some (strOf n.summary.unique_key) := by
      unfold keyOfN
      rw [if_pos htr]
    have hseen : strOf n.summary.unique_key ∈ σ.seen :=
      hinv.2.1 _ (mem_liveKeys_of hn hkey)
    exact pushNotification_seen p' r' t' maxN (by rw [hk]; exact htr)
      (by rw [hk]; exact hseen)
  · intro s' p' r' t' htr hfresh
    rw [pushNotification_not_seen p' r' t' maxN (fun hc => hfresh hc.2)]
    show ((mkItem s' p' r' t' :: σ.notifs).take maxN).length = _
    rw [List.length_take]
    simp [Nat.min_comm]

def notifC10 : Notif :=
  { id := "n1", created_at := 0, delivered_at := some 50,
    summary := keyedSummary "k10", payload := sampleContent }

def σC10 : Store := { notifs := [notifC10], seen := ["k10"] }

theorem inv_σC10 : Inv σC10 := by
  refine ⟨?_, ?_, ?_⟩ <;> decide

/-- Witness for C10 on a store holding one delivered record. -/
theorem claim_C10_witness :
    (Inv σC10 ∧ (σC10.notifs.map Notif.id).Nodup ∧ notifC10 ∈ σC10.notifs
        ∧ notifC10.delivered_at = some 50)
      ∧ notifC10.id ∉ (checkNotifications none none none none 60 72 σC10).1.map Notif.id
      ∧ notifC10 ∈ (cleanupNotifications 60 72 σC10).notifs
      ∧ pushNotification (keyedSummary "k10") sampleContent "r" 99 2 σC10 = σC10
      ∧ (pushNotification (keyedSummary "kFresh") sampleContent "r" 99 2 σC10).notifs.length
          = min (σC10.notifs.length + 1) 2 :=
  ⟨⟨inv_σC10, by decide, by decide, rfl⟩,
    (claim_C10_delivered_stay_live σC10 2 inv_σC10 (by decide) notifC10 50
        (by decide) rfl).1 none none none none 60 72,
    (claim_C10_delivered_stay_live σC10 2 inv_σC10 (by decide) notifC10 50
        (by decide) rfl).2.1 60 72 (by decide),
    (claim_C10_delivered_stay_live σC10 2 inv_σC10 (by decide) notifC10 50
        (by decide) rfl).2.2.1 (keyedSummary "k10") sampleContent "r" 99 rfl (by decide),
    (claim_C10_delivered_stay_live σC10 2 inv_σC10 (by decide) notifC10 50
        (by decide) rfl).2.2.2 (keyedSummary "kFresh") sampleContent "r" 99
      (by decide) (by decide)⟩

/-- C4: a non-peek query stamps every returned record with the one shared
`delivered_at` timestamp of that call; every returned record is the stamped
copy of a previously undelivered live record; and an immediately following
query with the same filter parameters returns none of the records delivered
by the first call. -/
theorem claim_C4_at_most_once_delivery (ueP moP liP pkP : Option String)
    (now₁ now₂ ttl : Int) (σ : Store) (hpk : peekOf pkP = false)
    (hid : (σ.notifs.map Notif.id).Nodup) :
    (∀ m ∈ (checkNotifications ueP moP liP pkP now₁ ttl σ).1,
        m.delivered_at = some now₁)
      ∧ (∀ m ∈ (checkNotifications ueP moP liP pkP now₁ ttl σ).1,
          ∃ w, w ∈ σ.notifs ∧ w.delivered_at = none
            ∧ m = { w with delivered_at := some now₁ })
      ∧ ∀ m ∈ (checkNotifications ueP moP liP pkP now₂ ttl
            (checkNotifications ueP moP liP pkP now₁ ttl σ).2).1,
          m.id ∉ (checkNotifications ueP moP liP pkP now₁ ttl σ).1.map Notif.id := by
  have hfst : (checkNotifications ueP moP liP pkP now₁ ttl σ).1
      = (querySel ueP moP liP (cleanupNotifications now₁ ttl σ)).map
          (fun n => { n with delivered_at := some now₁ }) := by
    simp [checkNotifications, hpk]
  have hsnd : (checkNotifications ueP moP liP pkP now₁ ttl σ).2
      = { notifs := (cleanupNotifications now₁ ttl σ).notifs.map
            (stampIf (querySel ueP moP liP (cleanupNotifications now₁ ttl σ)) now₁),
          seen := (cleanupNotifications now₁ ttl σ).seen } := by
    simp [checkNotifications, hpk]
  refine ⟨?_, ?_, ?_⟩
  · intro m hm
    rw [hfst] at hm
    obtain ⟨w, -, rfl⟩ := List.mem_map.mp hm
    rfl
  · intro m hm
    rw [hfst] at hm
    obtain ⟨w, hw, rfl⟩ := List.mem_map.mp hm
    obtain ⟨hmem, hdel⟩ := mem_querySel hw
    rw [cleanup_notifs] at hmem
    exact ⟨w, (List.mem_filter.mp hmem).1, hdel, rfl⟩
  · intro m hm hcontra
    rw [hfst] at hcontra
    rw [List.map_map] at hcontra
    obtain ⟨u, hu, huid⟩ := List.mem_map.mp hcontra
    obtain ⟨w, hw, hwdel, -, hmid, -, -⟩ :=
      items_spec ueP moP liP pkP now₂ ttl _ m hm
    rw [hsnd] at hw
    obtain ⟨w₀, hw₀, hww⟩ := List.mem_map.mp hw
    have hndc : ((cleanupNotifications now₁ ttl σ).notifs.map Notif.id).Nodup := by
      rw [cleanup_notifs]
      exact hid.sublist ((List.filter_sublist σ.notifs).map Notif.id)
    cases hc : (querySel ueP moP liP (cleanupNotifications now₁ ttl σ)).contains w₀ with
    | true =>
      rw [← hww] at hwdel
      unfold stampIf at hwdel
      rw [hc] at hwdel
      simp at hwdel
    | false =>
      have hww₀ : w = w₀ := by
        rw [← hww]
        unfold stampIf
        rw [hc]
        simp
      have huc : u ∈ (cleanupNotifications now₁ ttl σ).notifs := (mem_querySel hu).1
      have huw : u = w₀ := by
        refine List.inj_on_of_nodup_map hndc huc hw₀ ?_
        show u.id = w₀.id
        rw [← hww₀]
        calc u.id = m.id := huid
          _ = w.id := hmid
      rw [huw] at hu
      rw [notif_contains_iff.mpr hu] at hc
      exact Bool.noConfusion hc

/-! ## Sequences of pushes (for the capacity-cap claim) -/

/-- One `pushNotification` call's arguments. -/
structure PushIn where
  s : Summary
  p : Content
  rid : String
  t : Int
deriving DecidableEq

/-- The record a push input produces. -/
def toNotif (i : PushIn) : Notif := mkItem i.s i.p i.rid i.t

/-- The key under which a push input deduplicates. -/
def pushKey (i : PushIn) : String := strOf i.s.unique_key

/-- A sequence of pushes, applied in order. -/
def pushMany (maxN : Nat) (σ : Store) (l : List PushIn) : Store :=
  l.foldl (fun acc i => pushNotification i.s i.p i.rid i.t maxN acc) σ

/-- Pushing fresh, pairwise-distinct truthy keys that fit under the cap just
stacks records at the head and keys on the seen-set. -/
theorem pushMany_no_evict (maxN : Nat) (l : List PushIn) (σ : Store)
    (h1 : ∀ i ∈ l, truthyS i.s.unique_key = true)
    (h2 : (l.map pushKey).Nodup)
    (h3 : ∀ i ∈ l, pushKey i ∉ σ.seen)
    (h4 : σ.notifs.length + l.length ≤ maxN) :
    pushMany maxN σ l =
      { notifs := (l.map toNotif).reverse ++ σ.notifs,
        seen := (l.map pushKey).reverse ++ σ.seen } := by
  induction l generalizing σ with
  | nil => simp [pushMany]
  | cons i tl ih =>
    have hguard : ¬(truthyS i.s.unique_key = true ∧ strOf i.s.unique_key ∈ σ.seen) := by
      rintro ⟨-, hmem⟩
      exact h3 i (List.mem_cons_self i tl) hmem
    have hstep : pushNotification i.s i.p i.rid i.t maxN σ =
        { notifs := mkItem i.s i.p i.rid i.t :: σ.notifs,
          seen := pushKey i :: σ.seen } := by
      rw [pushNotification_not_seen i.p i.rid i.t maxN hguard]
      have hlen : (mkItem i.s i.p i.rid i.t :: σ.notifs).length ≤ maxN := by
        simp only [List.length_cons] at h4 ⊢
        omega
      rw [List.take_of_length_le hlen, List.drop_eq_nil_of_le hlen, deleteKeys_nil]
      rw [if_pos (h1 i (List.mem_cons_self i tl))]
      have hadd : setAdd σ.seen (strOf i.s.unique_key) = pushKey i :: σ.seen := by
        unfold setAdd
        have hc : ¬(σ.seen.contains (strOf i.s.unique_key) = true) := fun hc =>
          h3 i (List.mem_cons_self i tl) (contains_iff_mem.mp hc)
        rw [if_neg hc]
        rfl
      rw [hadd]
    show pushMany maxN (pushNotification i.s i.p i.rid i.t maxN σ) tl = _
    rw [hstep]
    rw [List.map_cons] at h2
    have h2' := (List.nodup_cons.mp h2).2
    have hknot := (List.nodup_cons.mp h2).1
    rw [ih { notifs := mkItem i.s i.p i.rid i.t :: σ.notifs, seen := pushKey i :: σ.seen }
      (fun j hj => h1 j (List.mem_cons_of_mem i hj)) h2'
      (fun j hj => by
        show pushKey j ∉ pushKey i :: σ.seen
        simp only [List.mem_cons]
        rintro (heq | hmem)
        · exact hknot (heq ▸ List.mem_map_of_mem pushKey hj)
        · exact h3 j (List.mem_cons_of_mem i hj) hmem)
      (by
        show (mkItem i.s i.p i.rid i.t :: σ.notifs).length + tl.length ≤ maxN
        simp only [List.length_cons] at h4 ⊢
        omega)]
    have hn : (tl.map toNotif).reverse ++ (mkItem i.s i.p i.rid i.t :: σ.notifs)
        = ((i :: tl).map toNotif).reverse ++ σ.notifs := by
      rw [List.map_cons, List.reverse_cons, List.append_assoc]
      rfl
    have hs : (tl.map pushKey).reverse ++ (pushKey i :: σ.seen)
        = ((i :: tl).map pushKey).reverse ++ σ.seen := by
      rw [List.map_cons, List.reverse_cons, List.append_assoc]
      rfl
    rw [hn, hs]

/-- C3: starting empty with capacity `N ≥ 1`, pushing `N+1` records with
distinct truthy keys and increasing creation times leaves exactly the `N`
most recent records: the single oldest (by `created_at`) record — the first
pushed — is evicted, its key is removed from the seen-key set, and a
subsequent push reusing that key inserts again at the head. -/
theorem claim_C3_capacity_cap (maxN : Nat) (hmax : 1 ≤ maxN) (i₀ : PushIn)
    (rest : List PushIn) (hlen : rest.length = maxN)
    (htr : ∀ i ∈ i₀ :: rest, truthyS i.s.unique_key = true)
    (hnd : ((i₀ :: rest).map pushKey).Nodup)
    (hmono : ((i₀ :: rest).map (fun i => i.t)).Pairwise (fun a b => a < b)) :
    (pushMany maxN emptyStore (i₀ :: rest)).notifs = (rest.map toNotif).reverse
      ∧ (pushMany maxN emptyStore (i₀ :: rest)).notifs.length = maxN
      ∧ (∀ n ∈ (pushMany maxN emptyStore (i₀ :: rest)).notifs, i₀.t < n.created_at)
      ∧ pushKey i₀ ∉ (pushMany maxN emptyStore (i₀ :: rest)).seen
      ∧ ∀ r' t', (pushNotification i₀.s i₀.p r' t' maxN
            (pushMany maxN emptyStore (i₀ :: rest))).notifs.head?
          = some (mkItem i₀.s i₀.p r' t') := by
  rcases List.eq_nil_or_concat rest with hnil | ⟨mid, ilast, rfl⟩
  · rw [hnil] at hlen
    simp at hlen
    omega
  simp only [List.concat_eq_append] at hlen htr hnd hmono ⊢
  have hmidlen : mid.length = maxN - 1 := by
    simp only [List.length_append, List.length_singleton] at hlen
    omega
  have hpre : List.Sublist (i₀ :: mid) (i₀ :: (mid ++ [ilast])) :=
    List.Sublist.cons₂ i₀ (List.sublist_append_left mid [ilast])
  have hstage := pushMany_no_evict maxN (i₀ :: mid) emptyStore
    (fun i hi => htr i (hpre.subset hi))
    (hnd.sublist (hpre.map pushKey))
    (fun i _ => by simp [emptyStore])
    (by simp only [emptyStore, List.length_nil, List.length_cons]; omega)
  have hsplit : pushMany maxN emptyStore (i₀ :: (mid ++ [ilast]))
      = pushNotification ilast.s ilast.p ilast.rid ilast.t maxN
          (pushMany maxN emptyStore (i₀ :: mid)) := by
    unfold pushMany
    rw [show i₀ :: (mid ++ [ilast]) = (i₀ :: mid) ++ [ilast] from rfl]
    rw [List.foldl_append]
    rfl
  have hlastfresh : pushKey ilast ∉ ((i₀ :: mid).map pushKey).reverse ++ ([] : List String) := by
    have : ((i₀ :: mid).map pushKey ++ [pushKey ilast]).Nodup := by
      have he : (i₀ :: mid) ++ [ilast] = i₀ :: (mid ++ [ilast]) := rfl
      have := hnd
      rw [show ((i₀ :: (mid ++ [ilast])).map pushKey)
          = (i₀ :: mid).map pushKey ++ [pushKey ilast] by simp] at this
      exact this
    obtain ⟨-, -, hdisj⟩ := List.nodup_append.mp this
    simp only [List.append_nil, List.mem_reverse]
    intro hmem
    exact hdisj hmem (List.mem_singleton_self _)
  have hguard : ¬(truthyS ilast.s.unique_key = true
      ∧ strOf ilast.s.unique_key ∈ (pushMany maxN emptyStore (i₀ :: mid)).seen) := by
    rintro ⟨-, hmem⟩
    rw [hstage] at hmem
    exact hlastfresh hmem
  have hnmlen : ((i₀ :: mid).map toNotif).reverse.length = maxN := by
    simp only [List.length_reverse, List.length_map, List.length_cons]
    omega
  have hσ' : pushMany maxN emptyStore (i₀ :: (mid ++ [ilast]))
      = { notifs := toNotif ilast :: (mid.map toNotif).reverse,
          seen := deleteKeys [toNotif i₀]
            (setAdd (((i₀ :: mid).map pushKey).reverse ++ [])
              (strOf ilast.s.unique_key)) } := by
    rw [hsplit, hstage]
    rw [pushNotification_not_seen ilast.p ilast.rid ilast.t maxN
      (by rw [hstage] at hguard; exact hguard)]
    dsimp only [emptyStore]
    congr 1
    · obtain ⟨mm, hmm⟩ : ∃ mm, maxN = mm + 1 := ⟨maxN - 1, by omega⟩
      rw [hmm]
      rw [List.take_succ_cons]
      have hrw : ((i₀ :: mid).map toNotif).reverse ++ ([] : List Notif)
          = (mid.map toNotif).reverse ++ [toNotif i₀] := by
        simp
      rw [hrw]
      have hml : (mid.map toNotif).reverse.length = mm := by
        simp only [List.length_reverse, List.length_map]
        omega
      rw [List.take_left' hml]
      rfl
    · obtain ⟨mm, hmm⟩ : ∃ mm, maxN = mm + 1 := ⟨maxN - 1, by omega⟩
      rw [hmm]
      rw [List.drop_succ_cons]
      have hrw : ((i₀ :: mid).map toNotif).reverse ++ ([] : List Notif)
          = (mid.map toNotif).reverse ++ [toNotif i₀] := by
        simp
      rw [hrw]
      have hml : (mid.map toNotif).reverse.length = mm := by
        simp only [List.length_reverse, List.length_map]
        omega
      rw [List.drop_left' hml]
      rw [if_pos (htr ilast (by simp))]
  have hkeynot : pushKey i₀ ∉ (pushMany maxN emptyStore (i₀ :: (mid ++ [ilast]))).seen := by
    rw [hσ']
    rw [mem_deleteKeys]
    rintro ⟨-, hnot⟩
    apply hnot
    have hkey : keyOfN (toNotif i₀) = some (pushKey i₀) := by
      unfold keyOfN toNotif
      rw [mkItem_summary, if_pos (htr i₀ (List.mem_cons_self _ _))]
      rfl
    exact mem_liveKeys_of (List.mem_singleton_self _) hkey
  have hnotifs : (pushMany maxN emptyStore (i₀ :: (mid ++ [ilast]))).notifs
      = ((mid ++ [ilast]).map toNotif).reverse := by
    rw [hσ']
    simp
  refine ⟨hnotifs, ?_, ?_, hkeynot, ?_⟩
  · rw [hnotifs]
    simp only [List.length_reverse, List.length_map]
    exact hlen
  · intro n hn
    rw [hnotifs, List.mem_reverse] at hn
    obtain ⟨i, hi, rfl⟩ := List.mem_map.mp hn
    have := (List.pairwise_cons.mp hmono).1 i.t (List.mem_map_of_mem _ hi)
    simpa [toNotif] using this
  · intro r' t'
    rw [pushNotification_not_seen i₀.p r' t' maxN (fun hc => hkeynot hc.2)]
    obtain ⟨mm, hmm⟩ : ∃ mm, maxN = mm + 1 := ⟨maxN - 1, by omega⟩
    rw [hmm]
    rw [List.take_succ_cons]
    rfl

def iC3a : PushIn := { s := keyedSummary "ka", p := sampleContent, rid := "a", t := 0 }

def iC3b : PushIn := { s := keyedSummary "kb", p := sampleContent, rid := "b", t := 5 }

/-- Witness for C3 with capacity 1 and two distinct-keyed pushes. -/
theorem claim_C3_witness :
    (1 ≤ 1 ∧ [iC3b].length = 1
        ∧ (∀ i ∈ iC3a :: [iC3b], truthyS i.s.unique_key = true)
        ∧ ((iC3a :: [iC3b]).map pushKey).Nodup
        ∧ ((iC3a :: [iC3b]).map (fun i => i.t)).Pairwise (fun a b => a < b))
      ∧ (pushMany 1 emptyStore (iC3a :: [iC3b])).notifs = ([iC3b].map toNotif).reverse
      ∧ pushKey iC3a ∉ (pushMany 1 emptyStore (iC3a :: [iC3b])).seen
      ∧ (pushNotification iC3a.s iC3a.p "c" 10 1
            (pushMany 1 emptyStore (iC3a :: [iC3b]))).notifs.head?
          = some (mkItem iC3a.s iC3a.p "c" 10) :=
  ⟨⟨by decide, by decide, by decide, by decide, by decide⟩,
    (claim_C3_capacity_cap 1 (by decide) iC3a [iC3b] (by decide) (by decide)
      (by decide) (by decide)).1,
    (claim_C3_capacity_cap 1 (by decide) iC3a [iC3b] (by decide) (by decide)
      (by decide) (by decide)).2.2.2.1,
    (claim_C3_capacity_cap 1 (by decide) iC3a [iC3b] (by decide) (by decide)
      (by decide) (by decide)).2.2.2.2 "c" 10⟩

def σC4 : Store := pushNotification (keyedSummary "k4") sampleContent "a" 0 5 emptyStore

/-- Witness for C4: one record store, two successive default non-peek calls. -/
theorem claim_C4_witness :
    peekOf none = false ∧ (σC4.notifs.map Notif.id).Nodup
      ∧ (∀ m ∈ (checkNotifications none none none none 10 72 σC4).1,
          m.delivered_at = some 10)
      ∧ (∀ m ∈ (checkNotifications none none none none 20 72
            (checkNotifications none none none none 10 72 σC4).2).1,
          m.id ∉ (checkNotifications none none none none 10 72 σC4).1.map Notif.id) :=
  ⟨rfl, by decide,
    (claim_C4_at_most_once_delivery none none none none 10 20 72 σC4 rfl (by decide)).1,
    (claim_C4_at_most_once_delivery none none none none 10 20 72 σC4 rfl
      (by decide)).2.2⟩

/-! ## Enrichment-cache lemmas and the ticket-event flow -/

theorem find_map_set {m : TicketCache} {k : String} {v : CacheEntry}
    (h : ∃ p ∈ m, p.1 = k) :
    (m.map (fun p => if p.1 = k then (k, v) else p)).find?
        (fun p => decide (p.1 = k)) = some (k, v) := by
  induction m with
  | nil => simp at h
  | cons p ps ih =>
    by_cases hp : p.1 = k
    · rw [List.map_cons, if_pos hp]
      rw [List.find?_cons_of_pos _ (by simp)]
    · rw [List.map_cons, if_neg hp]
      rw [List.find?_cons_of_neg _ (by simp [hp])]
      apply ih
      rcases h with ⟨q, hq, hqk⟩
      rcases List.mem_cons.mp hq with rfl | hq'
      · exact absurd hqk hp
      · exact ⟨q, hq', hqk⟩

theorem find_append_new {m : TicketCache} {k : String} {v : CacheEntry}
    (h : ∀ p ∈ m, p.1 ≠ k) :
    (m ++ [(k, v)]).find? (fun p => decide (p.1 = k)) = some (k, v) := by
  induction m with
  | nil => simp
  | cons p ps ih =>
    rw [List.cons_append,
      List.find?_cons_of_neg _ (by simp [h p (List.mem_cons_self p ps)])]
    exact ih (fun q hq => h q (List.mem_cons_of_mem p hq))

/-- `Map.set` followed by `Map.get` on the same key yields the new value. -/
theorem mapGet_mapSet (m : TicketCache) (k : String) (v : CacheEntry) :
    mapGet (mapSet m k v) k = some v := by
  unfold mapGet mapSet
  by_cases h : m.any (fun p => decide (p.1 = k)) = true
  · rw [if_pos h]
    rw [find_map_set (by simpa using h)]
    rfl
  · rw [if_neg h]
    rw [find_append_new ?_]
    · rfl
    · intro p hp hpk
      exact h (List.any_eq_true.mpr ⟨p, hp, by simpa using hpk⟩)

/-- C7 (amended): for a Tekzap ticket-lifecycle event carrying a full
ticket, the relevance filter runs FIRST: an `UpdateOnTicket` with no unread
signal leaves the whole state unchanged — no enrichment-cache update and no
push.  An event that passes the filter first writes the cache entry for the
ticket id, with `is_pending` computed as "no assigned subject", and then
pushes the summary built from the ticket (replies untouched). -/
theorem claim_C7_ticket_event_flow (maxN : Nat) (now : Int) (rid : String)
    (st : ServerState) (content : Content) (event : String) (t : Ticket) (tid : Int)
    (he : content.event = some event) (hev : event ∈ ticketEvents)
    (ht : content.ticket = some t) (htid : t.id = some tid) :
    (event = "UpdateOnTicket" → unreadFlag t = false →
        processWebhook maxN now rid st content = st)
      ∧ ((event = "UpdateOnTicket" → unreadFlag t = true) →
          processWebhook maxN now rid st content
              = { replies := st.replies,
                  store := pushNotification (ticketSummaryOf content t event) content
                    rid now maxN st.store,
                  cache := mapSet st.cache (toString tid) (cacheEntryOf t) }
            ∧ mapGet (processWebhook maxN now rid st content).cache (toString tid)
                = some (cacheEntryOf t)
            ∧ (cacheEntryOf t).is_pending = !truthyS (ticketUserEmail t)
            ∧ (ticketSummaryOf content t event).is_pending
                = !truthyS (ticketUserEmail t)) := by
  have hne : event ≠ "" := by
    intro hh
    subst hh
    simp [ticketEvents] at hev
  have hnm : event ≠ "NewMessage" := by
    intro hh
    subst hh
    simp [ticketEvents] at hev
  have htruthy : truthyS content.event = true := by
    rw [he]
    simp [truthyS, hne]
  have hstr : strOf content.event = event := by
    rw [he]
    rfl
  have hcont : ticketEvents.contains event = true := contains_iff_mem.mpr hev
  have hrep : tekzapReplyAdd st.replies content event = st.replies := by
    unfold tekzapReplyAdd
    rw [if_neg hnm]
  constructor
  · intro hupd hunread
    unfold processWebhook
    rw [if_pos htruthy, hstr]
    dsimp only
    rw [hrep, if_pos hcont, ht]
    dsimp only
    rw [if_pos (by rw [hupd, hunread]; rfl)]
  · intro hpass
    have hbfalse : (decide (event = "UpdateOnTicket") && !unreadFlag t) = false := by
      by_cases hu : event = "UpdateOnTicket"
      · rw [hpass hu]
        simp
      · simp [hu]
    have hmain : processWebhook maxN now rid st content
        = { replies := st.replies,
            store := pushNotification (ticketSummaryOf content t event) content rid
              now maxN st.store,
            cache := mapSet st.cache (toString tid) (cacheEntryOf t) } := by
      unfold processWebhook
      rw [if_pos htruthy, hstr]
      dsimp only
      rw [hrep, if_pos hcont, ht]
      dsimp only
      rw [if_neg (by rw [hbfalse]; exact Bool.false_ne_true)]
      rw [htid]
    refine ⟨hmain, ?_, rfl, rfl⟩
    rw [hmain]
    exact mapGet_mapSet st.cache (toString tid) (cacheEntryOf t)

def tC7 : Ticket :=
  { id := some 5, tenantId := none, userEmail := none, unread := none,
    unreadMessages := none, contact := none, queue := none, status := none,
    userId := none, contactId := none, lastMessage := none, updatedAt := none,
    lastMessageAt := none, timestamp := none }

def contentC7 : Content :=
  { event := some "UpdateOnTicket", message := none, ticket := some tC7,
    tenantId := none, object := none, entry := [] }

def tC7b : Ticket := { tC7 with userEmail := some "A@X " }

def contentC7b : Content := { contentC7 with event := some "NewTicket", ticket := some tC7b }

/-- C7 counterexample: an `UpdateOnTicket` carrying a full ticket context but
no unread signal leaves the enrichment cache (and everything else) untouched
— the unread filter runs before the cache update, not after it as the claim
orders the steps. -/
theorem claim_C7_counterexample :
    processWebhook 2000 7 "r" emptyState contentC7 = emptyState
      ∧ mapGet (processWebhook 2000 7 "r" emptyState contentC7).cache "5" = none
      ∧ (processWebhook 2000 7 "r" emptyState contentC7).store.notifs = [] := by
  refine ⟨?_, ?_, ?_⟩ <;> decide

/-- Witness for C7: the dropped-update case and a passing `NewTicket` whose
cache entry records the lower-cased subject and `is_pending = false`. -/
theorem claim_C7_witness :
    (contentC7.event = some "UpdateOnTicket" ∧ "UpdateOnTicket" ∈ ticketEvents
        ∧ contentC7.ticket = some tC7 ∧ tC7.id = some 5 ∧ unreadFlag tC7 = false)
      ∧ processWebhook 2000 7 "r" emptyState contentC7 = emptyState
      ∧ (contentC7b.event = some "NewTicket" ∧ "NewTicket" ∈ ticketEvents
        ∧ contentC7b.ticket = some tC7b ∧ tC7b.id = some 5)
      ∧ mapGet (processWebhook 2000 7 "r" emptyState contentC7b).cache "5"
          = some (cacheEntryOf tC7b)
      ∧ (cacheEntryOf tC7b).is_pending = !truthyS (ticketUserEmail tC7b) :=
  ⟨⟨rfl, by decide, rfl, rfl, rfl⟩,
    (claim_C7_ticket_event_flow 2000 7 "r" emptyState contentC7 "UpdateOnTicket" tC7 5
      rfl (by decide) rfl rfl).1 rfl rfl,
    ⟨rfl, by decide, rfl, rfl⟩,
    ((claim_C7_ticket_event_flow 2000 7 "r" emptyState contentC7b "NewTicket" tC7b 5
      rfl (by decide) rfl rfl).2 (fun hu => absurd hu (by decide))).2.1,
    ((claim_C7_ticket_event_flow 2000 7 "r" emptyState contentC7b "NewTicket" tC7b 5
      rfl (by decide) rfl rfl).2 (fun hu => absurd hu (by decide))).2.2.1⟩

/-! ## Reply-set lemmas -/

/-- Well-formed reply set: no duplicates, digits-only identifiers. -/
def RepOk (rs : List String) : Prop :=
  rs.Nodup ∧ ∀ s ∈ rs, ∀ c ∈ s.data, c.isDigit = true

theorem repOk_nil : RepOk ([] : List String) := ⟨List.nodup_nil, by simp⟩

theorem digitsOnly_digits (s : String) :
    ∀ c ∈ (digitsOnly s).data, c.isDigit = true := by
  intro c hc
  exact (List.mem_filter.mp hc).2

theorem normalizeNumber_digits {o : Option String} {n : String}
    (h : normalizeNumber o = some n) : ∀ c ∈ n.data, c.isDigit = true := by
  cases o with
  | none => exact absurd h (by simp [normalizeNumber])
  | some s =>
    by_cases hs : s = ""
    · rw [show normalizeNumber (some s) = none by simp [normalizeNumber, hs]] at h
      exact absurd h (by simp)
    · rw [show normalizeNumber (some s) = some (digitsOnly s) by
        simp [normalizeNumber, hs]] at h
      obtain rfl : digitsOnly s = n := Option.some.inj h
      exact digitsOnly_digits s

theorem extract_digits {content : Content} {n : String}
    (h : extractTekzapInboundNumber content = some n) :
    ∀ c ∈ n.data, c.isDigit = true := by
  unfold extractTekzapInboundNumber at h
  cases hm : content.message with
  | none => rw [hm] at h; exact absurd h (by simp)
  | some msg => rw [hm] at h; exact normalizeNumber_digits h

theorem addReply_digits {rs : List String} {n : String} (h : RepOk rs)
    (hd : ∀ c ∈ n.data, c.isDigit = true) : RepOk (addReply rs n) := by
  unfold addReply
  by_cases hc : rs.contains n = true
  · rw [if_pos hc]
    exact h
  · rw [if_neg hc]
    refine ⟨?_, ?_⟩
    · rw [List.nodup_append]
      refine ⟨h.1, List.nodup_singleton n, ?_⟩
      intro a ha hb
      rw [List.mem_singleton] at hb
      subst hb
      exact hc (contains_iff_mem.mpr ha)
    · intro s hs
      rcases List.mem_append.mp hs with hx | hx
      · exact h.2 s hx
      · rw [List.mem_singleton] at hx
        subst hx
        exact hd

theorem addReply_idem (rs : List String) (n : String) :
    addReply (addReply rs n) n = addReply rs n := by
  unfold addReply
  by_cases hc : rs.contains n = true
  · rw [if_pos hc, if_pos hc]
  · rw [if_neg hc, if_pos (contains_iff_mem.mpr (by simp))]

theorem tekzapReplyAdd_ok {replies : List String} (content : Content) (event : String)
    (h : RepOk replies) : RepOk (tekzapReplyAdd replies content event) := by
  unfold tekzapReplyAdd
  split
  · split
    · next msg =>
      split
      · cases hx : extractTekzapInboundNumber content with
        | none => exact h
        | some n =>
          dsimp only
          by_cases hn : n ≠ ""
          · rw [if_pos hn]
            exact addReply_digits h (extract_digits hx)
          · rw [if_neg hn]
            exact h
      · exact h
    · exact h
  · exact h

theorem metaAddMsg_ok {rs : List String} (h : RepOk rs) (m : MetaMsg) :
    RepOk (metaAddMsg rs m) := by
  unfold metaAddMsg
  split
  · exact addReply_digits h (digitsOnly_digits _)
  · exact h

theorem foldl_metaAddMsg_ok (ms : List MetaMsg) :
    ∀ rs, RepOk rs → RepOk (ms.foldl metaAddMsg rs) := by
  induction ms with
  | nil => exact fun rs h => h
  | cons m tl ih => exact fun rs h => ih _ (metaAddMsg_ok h m)

theorem metaAddChange_ok (c : MetaChange) (rs : List String) (h : RepOk rs) :
    RepOk (metaAddChange rs c) := foldl_metaAddMsg_ok c.messages rs h

theorem foldl_metaAddChange_ok (l : List MetaChange) :
    ∀ rs, RepOk rs → RepOk (l.foldl metaAddChange rs) := by
  induction l with
  | nil => exact fun rs h => h
  | cons c tl ih => exact fun rs h => ih _ (metaAddChange_ok c rs h)

theorem metaAddEntry_ok (e : MetaEntry) (rs : List String) (h : RepOk rs) :
    RepOk (metaAddEntry rs e) := foldl_metaAddChange_ok e.changes rs h

theorem metaReplies_ok (es : List MetaEntry) :
    ∀ rs, RepOk rs → RepOk (metaReplies rs es) := by
  induction es with
  | nil => exact fun rs h => h
  | cons e tl ih => exact fun rs h => ih _ (metaAddEntry_ok e rs h)

/-- The reply set after `processWebhook`: Tekzap capture, Meta capture, or
unchanged. -/
theorem processWebhook_replies (maxN : Nat) (now : Int) (rid : String)
    (st : ServerState) (content : Content) :
    (processWebhook maxN now rid st content).replies
      = (if truthyS content.event
          then tekzapReplyAdd st.replies content (strOf content.event)
          else if truthyS content.object then metaReplies st.replies content.entry
          else st.replies) := by
  unfold processWebhook
  by_cases he : truthyS content.event = true
  · rw [if_pos he, if_pos he]
    dsimp only
    split
    · split
      · split
        · rfl
        · rfl
      · rfl
    · split
      · split
        · split
          · rfl
          · rfl
        · rfl
      · rfl
  · rw [if_neg he, if_neg he]
    split
    · rfl
    · rfl

theorem processWebhook_replies_ok (maxN : Nat) (now : Int) (rid : String)
    (st : ServerState) (content : Content) (h : RepOk st.replies) :
    RepOk (processWebhook maxN now rid st content).replies := by
  rw [processWebhook_replies]
  split
  · exact tekzapReplyAdd_ok content (strOf content.event) h
  · split
    · exact metaReplies_ok content.entry st.replies h
    · exact h

theorem checkReplies_clears (rs : List String) : (checkReplies rs).2 = [] := by
  unfold checkReplies
  dsimp only
  split
  · rfl
  · next h => exact List.length_eq_zero.mp (by omega)

/-- C9: every identifier entering the reply set is normalized to digits and
inserted with idempotent set semantics; after any sequence of processed
webhooks yielding K distinct identifiers, one drain returns exactly those K
identifiers (no duplicates) and clears the set, so an immediately following
drain returns count zero. -/
theorem claim_C9_reply_set_drain (maxN : Nat) (now : Int) (rid : String)
    (cs : List Content) (st : ServerState) (h : RepOk st.replies) :
    RepOk (cs.foldl (processWebhook maxN now rid) st).replies
      ∧ (checkReplies (cs.foldl (processWebhook maxN now rid) st).replies).1
          = ((cs.foldl (processWebhook maxN now rid) st).replies.length,
              (cs.foldl (processWebhook maxN now rid) st).replies)
      ∧ (checkReplies (cs.foldl (processWebhook maxN now rid) st).replies).2 = []
      ∧ (checkReplies (checkReplies
            (cs.foldl (processWebhook maxN now rid) st).replies).2).1.1 = 0
      ∧ ∀ rs n, addReply (addReply rs n) n = addReply rs n := by
  have hfold : ∀ (l : List Content) (s : ServerState), RepOk s.replies →
      RepOk (l.foldl (processWebhook maxN now rid) s).replies := by
    intro l
    induction l with
    | nil => exact fun s hs => hs
    | cons c tl ih =>
      exact fun s hs => ih _ (processWebhook_replies_ok maxN now rid s c hs)
  refine ⟨hfold cs st h, rfl, checkReplies_clears _, ?_, fun rs n => addReply_idem rs n⟩
  rw [checkReplies_clears]
  rfl

def msgC9 : Message :=
  { fromMe := some false, number := some "+55 (11) 9", chatId := none,
    contact := none, rawFrom := none, ticketId := none, id := none,
    messageId := none, msgCreatedAt := none, timestamp := none, createdAt := none,
    body := none, userId := none, contactId := none, tenantId := none }

def contentC9 : Content :=
  { event := some "NewMessage", message := some msgC9, ticket := none,
    tenantId := none, object := none, entry := [] }

/-- Witness for C9: processing the same inbound message twice yields one
normalized identifier, drained exactly once. -/
theorem claim_C9_witness :
    RepOk emptyState.replies
      ∧ RepOk ([contentC9, contentC9].foldl (processWebhook 2000 0 "r")
          emptyState).replies
      ∧ (checkReplies ([contentC9, contentC9].foldl (processWebhook 2000 0 "r")
          emptyState).replies).2 = []
      ∧ addReply (addReply ["12"] "34") "34" = addReply ["12"] "34" :=
  ⟨repOk_nil,
    (claim_C9_reply_set_drain 2000 0 "r" [contentC9, contentC9] emptyState repOk_nil).1,
    (claim_C9_reply_set_drain 2000 0 "r" [contentC9, contentC9] emptyState
      repOk_nil).2.2.1,
    (claim_C9_reply_set_drain 2000 0 "r" [contentC9, contentC9] emptyState
      repOk_nil).2.2.2.2 ["12"] "34"⟩

/-- Witness for C6 at concrete malformed parameters. -/
theorem claim_C6_witness :
    ("bogus" ≠ "" ∧ "bogus" ≠ "pending" ∧ "bogus" ≠ "my"
        ∧ parseIntJs "abc" = none ∧ "abc" ≠ "" ∧ "x" ≠ "1" ∧ "x" ≠ "true")
      ∧ (checkNotifications none (some "bogus") none none 0 72 σC6
            = checkNotifications none (some "all") none none 0 72 σC6
          ∧ (checkNotifications none none (some "abc") none 0 72 σC6).1 = []
          ∧ checkNotifications none none none (some "x") 0 72 σC6
            = checkNotifications none none none none 0 72 σC6) :=
  ⟨by decide,
    claim_C6_param_fallbacks none none none none 0 72 σC6 "bogus" "abc" "x"
      (by decide) (by decide) (by decide) (by decide) (by decide) (by decide)
      (by decide)⟩

end Webhook
